import Mathlib

/-!
Verification of the claude-mem transcript viewer.

Shallow embedding of the two service modules:
* `src/services/viewer-service.ts` — the SSE broadcast hub (`ViewerService`):
  connection registry, `broadcast`, `sendQueuedEvents`, `handleSSE`, the
  heartbeat tick.
* `src/services/transcript-parser.ts` — the transcript reader: `parseJSONL`,
  `isSubAgentFile`, `isSessionFile`, `extractAgentId`, `discoverSubAgents`,
  `parseSession`, `getProjectSessions`, `getSession`.

Modelling conventions:
* JavaScript `Map` iteration follows insertion order, so the client registry
  is a `List` in insertion order.
* A fallible Node call (`readFileSync`, `readdirSync`, `statSync`) is a
  function into `Option`: `none` models the call throwing.
* A stream (`res`) is modelled by a `resBroken` flag: every `res.write` on a
  broken stream throws, every write on a live stream succeeds; writes are
  collected in explicit write logs `List (String × SSEEvent)` pairing the
  client id of the target stream with the event written to it.
* Code that can throw is modelled in `Except`; `try`/`catch` becomes a match
  on the result.
* JavaScript string builtins (`split`, `trim`, `includes`, `startsWith`,
  `endsWith`, single-replacement `replace`) are modelled on `List Char` by
  structurally recursive functions, so that all definitions evaluate by
  kernel reduction.
-/

namespace ClaudeMem

/-! ## JavaScript string builtins, modelled on `List Char` -/

/-- Model of the JS string search underlying `String.prototype.includes` and
`String.prototype.replace`: index of the first occurrence of `pat` in `l`,
or `none`. -/
def firstOccAux (pat : List Char) : List Char → Option Nat
  | [] => if pat = [] then some 0 else none
  | c :: rest =>
    if (c :: rest).take pat.length = pat then some 0
    else (firstOccAux pat rest).map (· + 1)

/-- Model of JS `String.prototype.includes`. -/
def jsIncludes (s pat : String) : Bool :=
  (firstOccAux pat.data s.data).isSome

/-- Model of JS `String.prototype.startsWith`. -/
def jsStartsWith (s pat : String) : Bool :=
  decide (s.data.take pat.data.length = pat.data)

/-- Model of JS `String.prototype.endsWith`. -/
def jsEndsWith (s pat : String) : Bool :=
  decide (s.data.drop (s.data.length - pat.data.length) = pat.data
    ∧ pat.data.length ≤ s.data.length)

/-- Model of JS `String.prototype.replace` with a string pattern and empty
replacement: it removes only the FIRST occurrence of `pat` (this is the
semantics of `sessionFile.replace('.jsonl', '')` in the source). -/
def jsReplaceFirst (s pat : String) : String :=
  match firstOccAux pat.data s.data with
  | none => s
  | some i => ⟨s.data.take i ++ s.data.drop (i + pat.data.length)⟩

/-- Model of JS `String.prototype.split` with a single-character separator
(the source only splits on `'\n'` and `'/'`). -/
def jsSplitChar (sep : Char) : List Char → List (List Char)
  | [] => [[]]
  | c :: rest =>
    match jsSplitChar sep rest with
    | [] => [[]]
    | p :: ps => if c = sep then [] :: p :: ps else (c :: p) :: ps

/-- Model of JS `String.prototype.trim`. -/
def jsTrim (l : List Char) : List Char :=
  ((l.dropWhile Char.isWhitespace).reverse.dropWhile Char.isWhitespace).reverse

/-- Model of `path.join` for the arguments used in this repository
(plain segments, no `.`/`..` normalisation). -/
def joinPath (a b : String) : String := a ++ "/" ++ b

/-! ## SSE events and clients (`viewer-service.ts`) -/

/-- The `data` payloads that `viewer-service.ts` puts into SSE events:
`{ clientId }` for `connected`, `{ timestamp }` for `heartbeat`,
`{ eventType, filename, timestamp }` for `file_change`. -/
inductive EventData where
  | clientId (id : String)
  | timestamp (t : Nat)
  | fileChange (eventType : String) (filename : String) (timestamp : Nat)
deriving DecidableEq

/-- Model of `interface SSEEvent { type: string; data: any }`. -/
structure SSEEvent where
  type : String
  data : EventData
deriving DecidableEq

/-- Model of `interface SSEClient { id, queue, res }`.  The outbound `Queue<SSEEvent>`
is not among the sources (`src/utils/queue.ts` is absent); modelled from the
spec: a FIFO queue, here a list with enqueue at the tail and dequeue at the
head.  `resBroken` models the state of the underlying response stream:
`res.write` throws exactly when the stream is broken. -/
structure SSEClient where
  id : String
  queue : List SSEEvent
  resBroken : Bool
deriving DecidableEq

/-- The `while (!queue.isEmpty()) { dequeue; res.write }` loop body of
`ViewerService.sendQueuedEvents`: writes the queued events front-first,
throwing on the first write to a broken stream. -/
def sendQueuedEventsGo (resBroken : Bool) : List SSEEvent → Except String (List SSEEvent)
  | [] => .ok []
  | e :: rest =>
    match resBroken with
    | true => .error "write failed"
    | false =>
      match sendQueuedEventsGo resBroken rest with
      | .ok ws => .ok (e :: ws)
      | .error msg => .error msg

/-- Embedding of `ViewerService.sendQueuedEvents` (viewer-service.ts:84-92): drain the
client's queue completely, writing each event to `client.res`; on success the
queue is empty.  A write failure propagates to the caller (there is no
`try` here). -/
def sendQueuedEvents (client : SSEClient) : Except String (SSEClient × List SSEEvent) :=
  match sendQueuedEventsGo client.resBroken client.queue with
  | .ok ws => .ok ({ client with queue := [] }, ws)
  | .error msg => .error msg

/-- Embedding of `ViewerService.broadcast` (viewer-service.ts:67-79): for each registered
client in insertion order, `try { enqueue; sendQueuedEvents } catch { delete }`.
Returns the new registry and the log of per-client successful write bursts. -/
def broadcast (type : String) (data : EventData) :
    List SSEClient → List SSEClient × List (String × List SSEEvent)
  | [] => ([], [])
  | client :: rest =>
    let event : SSEEvent := { type := type, data := data }
    let enq := { client with queue := client.queue ++ [event] }
    match sendQueuedEvents enq with
    | .ok (c, ws) =>
      let r := broadcast type data rest
      (c :: r.1, (client.id, ws) :: r.2)
    | .error _ => broadcast type data rest

/-- One tick of the `heartbeatInterval` timer of `ViewerService.handleSSE`
(viewer-service.ts:128-133): `if (this.clients.has(clientId)) res.write(...)`.
Returns the writes performed by the tick. -/
def heartbeatTick (clients : List SSEClient) (clientId : String) (now : Nat) :
    List (String × SSEEvent) :=
  if clients.any (fun c => c.id == clientId) then
    [(clientId, { type := "heartbeat", data := EventData.timestamp now })]
  else []

/-- The mutable state of `ViewerService`: the client registry (a `Map` in
insertion order) and the `nextClientId` counter (initialised to 1). -/
structure ViewerState where
  clients : List SSEClient
  nextClientId : Nat
deriving DecidableEq

def ViewerState.init : ViewerState := { clients := [], nextClientId := 1 }

/-- The id string `` `client-${this.nextClientId++}` ``; JS prints the
counter in decimal, which is `Nat.repr`. -/
def mkClientId (n : Nat) : String := "client-" ++ Nat.repr n

/-- Embedding of `ViewerService.handleSSE` (viewer-service.ts:105-125): assign
`client-${nextClientId++}`, store a client with a fresh empty queue, and
write the initial `connected` event carrying the assigned id.  `rb` is the
brokenness of the new response stream.  Returns the new state, the assigned
id, and the write log of the registration. -/
def handleSSE (rb : Bool) (s : ViewerState) :
    ViewerState × String × List (String × SSEEvent) :=
  let clientId := mkClientId s.nextClientId
  let client : SSEClient := { id := clientId, queue := [], resBroken := rb }
  ( { clients := s.clients ++ [client], nextClientId := s.nextClientId + 1 },
    clientId,
    [(clientId, { type := "connected", data := EventData.clientId clientId })] )

/-! ## Transcript reader (`transcript-parser.ts`) -/

/-- One line of a transcript, as produced by `parseJSONL`: `J` is the type of
decoded JSON documents (the reader treats them opaquely).  A line that
`JSON.parse` rejects becomes the sentinel record
`{ type: 'parse_error', raw: line }`. -/
inductive TranscriptMessage (J : Type) where
  | record (v : J)
  | parseErrorRecord (raw : String)
deriving DecidableEq

/-- Model of `interface SubAgentInfo` (without the unused optional `parentSession`). -/
structure SubAgentInfo (J : Type) where
  id : String
  path : String
  messages : List (TranscriptMessage J)
deriving DecidableEq

/-- Model of `interface Session`. -/
structure Session (J : Type) where
  projectPath : String
  projectName : String
  sessionFile : String
  sessionId : String
  messages : List (TranscriptMessage J)
  subAgents : List (SubAgentInfo J)
  lastModified : Nat
deriving DecidableEq

/-- The ambient effects of the reader: the Node filesystem calls and the JS
JSON decoder.  `none` models the call throwing (ENOENT, EACCES, I/O error,
`SyntaxError`); `statSync` returns the file's `mtimeMs`. -/
structure Env (J : Type) where
  readFileSync : String → Option String
  readdirSync : String → Option (List String)
  statSync : String → Option Nat
  jsonParse : String → Option J

/-- Model of `os.homedir()`, a fixed directory for the process. -/
def homedir : String := "/home/user"

/-- Embedding of `const CLAUDE_PROJECTS_DIR = join(homedir(), '.claude', 'projects')`. -/
def CLAUDE_PROJECTS_DIR : String := joinPath (joinPath homedir ".claude") "projects"

/-- The non-blank lines of a file body:
`content.split('\n').filter(line => line.trim())`. -/
def nonBlankLines (content : String) : List String :=
  ((jsSplitChar '\n' content.data).map (fun l => String.mk l)).filter
    (fun line => !(jsTrim line.data).isEmpty)

/-- Embedding of `parseJSONL` (transcript-parser.ts:43-58): read the file, split on
newlines, drop blank lines, decode each remaining line independently;
a line `JSON.parse` rejects yields `{ type: 'parse_error', raw: line }`;
a failed read is caught and yields `[]`. -/
def parseJSONL {J : Type} (env : Env J) (filePath : String) : List (TranscriptMessage J) :=
  match env.readFileSync filePath with
  | none => []
  | some content =>
    (nonBlankLines content).map (fun line =>
      match env.jsonParse line with
      | some v => TranscriptMessage.record v
      | none => TranscriptMessage.parseErrorRecord line)

/-- Embedding of `extractAgentId` (transcript-parser.ts:63-66): the regex
`^agent-(.+)\.jsonl$` with a greedy group; it matches exactly the filenames
with prefix `agent-`, suffix `.jsonl` and a non-empty middle, and captures
that middle. -/
def extractAgentId (filename : String) : Option String :=
  if filename.data.take 6 = "agent-".data
      ∧ filename.data.drop (filename.data.length - 6) = ".jsonl".data
      ∧ 13 ≤ filename.data.length then
    some ⟨(filename.data.drop 6).take (filename.data.length - 12)⟩
  else none

/-- Embedding of `isSubAgentFile` (transcript-parser.ts:71-73). -/
def isSubAgentFile (filename : String) : Bool :=
  jsStartsWith filename "agent-" && jsEndsWith filename ".jsonl"

/-- Embedding of `isSessionFile` (transcript-parser.ts:78-80). -/
def isSessionFile (filename : String) : Bool :=
  jsEndsWith filename ".jsonl" && !isSubAgentFile filename
    && !jsIncludes filename "-agent-"

/-- Embedding of `discoverSubAgents` (transcript-parser.ts:85-109): list the directory and
parse every sub-agent file; a failed directory read is caught and yields `[]`. -/
def discoverSubAgents {J : Type} (env : Env J) (projectPath : String) :
    List (SubAgentInfo J) :=
  match env.readdirSync projectPath with
  | none => []
  | some files =>
    files.filterMap (fun file =>
      if isSubAgentFile file then
        match extractAgentId file with
        | some agentId =>
          let filePath := joinPath projectPath file
          some { id := agentId, path := filePath,
                 messages := parseJSONL env filePath }
        | none => none
      else none)

/-- The `projectPath.split('/').pop()` of `parseSession`: `split` always
returns a non-empty array, `pop` takes its last element. -/
def jsSplitPop (sep : Char) (s : String) : String :=
  ⟨(jsSplitChar sep s.data).getLastD []⟩

/-- Embedding of `parseSession` (transcript-parser.ts:114-137): `statSync` the file (the
only fallible step — `parseJSONL` and `discoverSubAgents` catch their own
errors), then assemble the `Session`; the surrounding `try`/`catch` maps a
thrown error to `null`. -/
def parseSession {J : Type} (env : Env J) (projectPath sessionFile : String) :
    Option (Session J) :=
  let filePath := joinPath projectPath sessionFile
  match env.statSync filePath with
  | none => none
  | some mtimeMs =>
    let messages := parseJSONL env filePath
    let subAgents := discoverSubAgents env projectPath
    let sessionId := jsReplaceFirst sessionFile ".jsonl"
    let lastPart := jsSplitPop '/' projectPath
    some { projectPath := projectPath
           projectName := if lastPart = "" then "unknown" else lastPart
           sessionFile := sessionFile
           sessionId := sessionId
           messages := messages
           subAgents := subAgents
           lastModified := mtimeMs }

/-- The session records collected by the loop of `getProjectSessions`
(transcript-parser.ts:147-154), in directory order, before sorting. -/
def collectSessions {J : Type} (env : Env J) (projectPath : String) : List (Session J) :=
  match env.readdirSync projectPath with
  | none => []
  | some files =>
    files.filterMap (fun file =>
      if isSessionFile file then parseSession env projectPath file else none)

/-- Embedding of `getProjectSessions` (transcript-parser.ts:142-162): collect the sessions
and sort with the comparator `(a, b) => b.lastModified - a.lastModified`
(newest first; JS `Array.prototype.sort` is a stable merge sort); a failed
directory read is caught and yields `[]`. -/
def getProjectSessions {J : Type} (env : Env J) (projectPath : String) : List (Session J) :=
  (collectSessions env projectPath).mergeSort
    (fun a b => decide (b.lastModified ≤ a.lastModified))

/-- Embedding of `getSession` (transcript-parser.ts:205-209): reconstruct the path from
the two identifiers and delegate to `parseSession`. -/
def getSession {J : Type} (env : Env J) (projectName sessionId : String) :
    Option (Session J) :=
  let projectPath := joinPath CLAUDE_PROJECTS_DIR projectName
  let sessionFile := sessionId ++ ".jsonl"
  parseSession env projectPath sessionFile

/-! ## Concrete environments used in witnesses and counterexamples -/

/-- A filesystem in which every call throws (nothing exists). -/
def envNoneFS : Env Unit :=
  { readFileSync := fun _ => none, readdirSync := fun _ => none,
    statSync := fun _ => none, jsonParse := fun _ => none }

/-- A filesystem in which every path stats (mtime 0), every file reads as
empty and every directory is empty. -/
def envAllFound : Env Unit :=
  { readFileSync := fun _ => some "", readdirSync := fun _ => some [],
    statSync := fun _ => some 0, jsonParse := fun _ => none }

/-- A filesystem with a single three-line file body `"1\n\nbad"`, whose JSON
decoder accepts exactly the line `"1"`. -/
def envC5 : Env Nat :=
  { readFileSync := fun _ => some "1\n\nbad", readdirSync := fun _ => some [],
    statSync := fun _ => some 0,
    jsonParse := fun s => if s = "1" then some 1 else none }

/-! ## Broadcast hub lemmas -/

theorem SSEClient.eta_queue (c : SSEClient) (h : c.queue = []) :
    { c with queue := [] } = c := by
  cases c
  simp_all

theorem sendQueuedEventsGo_ok {rb : Bool} {q ws : List SSEEvent}
    (h : sendQueuedEventsGo rb q = .ok ws) : ws = q := by
  induction q generalizing ws with
  | nil => simpa [sendQueuedEventsGo] using h.symm
  | cons e rest ih =>
    cases rb with
    | true => simp [sendQueuedEventsGo] at h
    | false =>
      simp only [sendQueuedEventsGo] at h
      cases hgo : sendQueuedEventsGo false rest with
      | ok ws' =>
        rw [hgo] at h
        cases h
        rw [ih hgo]
      | error msg => rw [hgo] at h; cases h

theorem sendQueuedEvents_ok {c c2 : SSEClient} {ws : List SSEEvent}
    (h : sendQueuedEvents c = .ok (c2, ws)) :
    c2 = { c with queue := [] } ∧ ws = c.queue := by
  unfold sendQueuedEvents at h
  cases hgo : sendQueuedEventsGo c.resBroken c.queue with
  | ok ws' =>
    rw [hgo] at h
    cases h
    exact ⟨rfl, sendQueuedEventsGo_ok hgo⟩
  | error msg => rw [hgo] at h; cases h

theorem sendQueuedEventsGo_live (q : List SSEEvent) :
    sendQueuedEventsGo false q = .ok q := by
  induction q with
  | nil => rfl
  | cons e rest ih => simp [sendQueuedEventsGo, ih]

theorem sendQueuedEvents_live (c : SSEClient) (h : c.resBroken = false) :
    sendQueuedEvents c = .ok ({ c with queue := [] }, c.queue) := by
  unfold sendQueuedEvents
  rw [h, sendQueuedEventsGo_live]

theorem sendQueuedEvents_broken (c : SSEClient) (h : c.resBroken = true)
    (hq : c.queue ≠ []) : sendQueuedEvents c = .error "write failed" := by
  unfold sendQueuedEvents
  cases hcq : c.queue with
  | nil => exact absurd hcq hq
  | cons e rest => rw [h]; rfl

theorem broadcast_live (type : String) (d : EventData) (cs : List SSEClient)
    (hb : ∀ c ∈ cs, c.resBroken = false) (hq : ∀ c ∈ cs, c.queue = []) :
    broadcast type d cs =
      (cs, cs.map (fun c => (c.id, [{ type := type, data := d }]))) := by
  induction cs with
  | nil => rfl
  | cons c rest ih =>
    obtain ⟨cid, cq, crb⟩ := c
    have hcb : crb = false := hb ⟨cid, cq, crb⟩ (by simp)
    have hcq : cq = [] := hq ⟨cid, cq, crb⟩ (by simp)
    subst hcb
    subst hcq
    have hrest := ih (fun x hx => hb x (by simp [hx])) (fun x hx => hq x (by simp [hx]))
    rw [show broadcast type d (⟨cid, [], false⟩ :: rest) =
        (⟨cid, [], false⟩ :: (broadcast type d rest).1,
         (cid, [{ type := type, data := d }]) :: (broadcast type d rest).2) from rfl,
      hrest]
    simp

/-- C1: if N connections are registered and writing to one connection's
stream fails, `broadcast` still delivers the event to all other registered
connections (each receives exactly the broadcast event), removes exactly the
failing connection from the registry, and leaves every succeeding
connection's registry entry unchanged. -/
theorem broadcast_isolates_failure (type : String) (d : EventData)
    (pre post : List SSEClient) (b : SSEClient)
    (hb : b.resBroken = true)
    (hpre : ∀ c ∈ pre, c.resBroken = false)
    (hpost : ∀ c ∈ post, c.resBroken = false)
    (hq : ∀ c ∈ pre ++ b :: post, c.queue = []) :
    broadcast type d (pre ++ b :: post) =
      (pre ++ post,
       (pre ++ post).map (fun c => (c.id, [{ type := type, data := d }]))) := by
  induction pre with
  | nil =>
    obtain ⟨bid, bq, brb⟩ := b
    have hbq : bq = [] := hq ⟨bid, bq, brb⟩ (by simp)
    have hbb : brb = true := hb
    subst hbb
    subst hbq
    have hrest := broadcast_live type d post hpost (fun x hx => hq x (by simp [hx]))
    rw [show broadcast type d (([] : List SSEClient) ++ ⟨bid, [], true⟩ :: post) =
        broadcast type d post from rfl, hrest]
    simp
  | cons c rest ih =>
    obtain ⟨cid, cq, crb⟩ := c
    have hcb : crb = false := hpre ⟨cid, cq, crb⟩ (by simp)
    have hcq : cq = [] := hq ⟨cid, cq, crb⟩ (by simp)
    subst hcb
    subst hcq
    have hrest := ih (fun x hx => hpre x (by simp [hx]))
      (fun x hx => hq x (by simp [List.mem_append] at hx ⊢; tauto))
    rw [show broadcast type d ((⟨cid, [], false⟩ :: rest) ++ b :: post) =
        (⟨cid, [], false⟩ :: (broadcast type d (rest ++ b :: post)).1,
         (cid, [{ type := type, data := d }]) :: (broadcast type d (rest ++ b :: post)).2)
        from rfl,
      hrest]
    simp

theorem broadcast_isolates_failure_witness :
    broadcast "file_change" (EventData.fileChange "change" "a.jsonl" 5)
        [⟨"client-1", [], false⟩, ⟨"client-2", [], true⟩, ⟨"client-3", [], false⟩] =
      ([⟨"client-1", [], false⟩, ⟨"client-3", [], false⟩],
       [("client-1", [⟨"file_change", EventData.fileChange "change" "a.jsonl" 5⟩]),
        ("client-3", [⟨"file_change", EventData.fileChange "change" "a.jsonl" 5⟩])]) := by
  have h := broadcast_isolates_failure "file_change"
    (EventData.fileChange "change" "a.jsonl" 5)
    [⟨"client-1", [], false⟩] [⟨"client-3", [], false⟩] ⟨"client-2", [], true⟩
    rfl (by decide) (by decide) (by decide)
  simpa using h

/-- C2: a heartbeat tick for a connection id that is no longer in the
registry writes nothing to any stream (check-then-act against the registry
on every tick). -/
theorem heartbeatTick_skips_unregistered (clients : List SSEClient)
    (clientId : String) (now : Nat)
    (h : ∀ c ∈ clients, c.id ≠ clientId) :
    heartbeatTick clients clientId now = [] := by
  unfold heartbeatTick
  rw [if_neg]
  intro hany
  rw [List.any_eq_true] at hany
  obtain ⟨c, hc, hid⟩ := hany
  exact h c hc (by simpa using hid)

theorem heartbeatTick_skips_unregistered_witness :
    heartbeatTick [⟨"client-2", [], false⟩] "client-1" 7 = [] :=
  heartbeatTick_skips_unregistered _ _ _ (by decide)

theorem broadcast_mem_queue {type : String} {d : EventData}
    {cs : List SSEClient} {c3 : SSEClient}
    (h : c3 ∈ (broadcast type d cs).1) : c3.queue = [] := by
  induction cs with
  | nil => simp [broadcast] at h
  | cons c rest ih =>
    simp only [broadcast] at h
    cases hse : sendQueuedEvents { c with queue := c.queue ++ [⟨type, d⟩] } with
    | ok p =>
      obtain ⟨cc, ws⟩ := p
      rw [hse] at h
      simp only [List.mem_cons] at h
      rcases h with h | h
      · subst h
        exact (sendQueuedEvents_ok hse).1 ▸ rfl
      · exact ih h
    | error msg =>
      rw [hse] at h
      exact ih h

/-- C4: a successful flush (`sendQueuedEvents`) writes exactly the queued
events in FIFO enqueue order and leaves the queue empty; and every
connection still registered after a `broadcast` has an empty outbound
queue. -/
theorem sendQueuedEvents_fifo_drain (c c2 : SSEClient) (ws : List SSEEvent)
    (h : sendQueuedEvents c = .ok (c2, ws))
    (type : String) (d : EventData) (cs : List SSEClient) (c3 : SSEClient)
    (h3 : c3 ∈ (broadcast type d cs).1) :
    ws = c.queue ∧ c2.queue = [] ∧ c3.queue = [] := by
  obtain ⟨hc2, hws⟩ := sendQueuedEvents_ok h
  exact ⟨hws, hc2 ▸ rfl, broadcast_mem_queue h3⟩

theorem sendQueuedEvents_fifo_drain_witness :
    [(⟨"heartbeat", EventData.timestamp 1⟩ : SSEEvent), ⟨"heartbeat", EventData.timestamp 2⟩] =
        (⟨"client-1", [⟨"heartbeat", EventData.timestamp 1⟩, ⟨"heartbeat", EventData.timestamp 2⟩], false⟩ : SSEClient).queue ∧
      (⟨"client-1", [], false⟩ : SSEClient).queue = [] ∧
      (⟨"client-2", [], false⟩ : SSEClient).queue = [] :=
  sendQueuedEvents_fifo_drain
    ⟨"client-1", [⟨"heartbeat", EventData.timestamp 1⟩, ⟨"heartbeat", EventData.timestamp 2⟩], false⟩
    ⟨"client-1", [], false⟩ _ rfl "heartbeat" (EventData.timestamp 0)
    [⟨"client-2", [], false⟩] ⟨"client-2", [], false⟩ (by decide)

/-! ## Decimal client ids are injective -/

theorem toDigitsCore_eq_digits (fuel : Nat) :
    ∀ (n : Nat) (acc : List Char), 0 < n → n < fuel →
      Nat.toDigitsCore 10 fuel n acc =
        ((Nat.digits 10 n).map Nat.digitChar).reverse ++ acc := by
  induction fuel with
  | zero => intro n acc hn hf; exact absurd hf (by omega)
  | succ f ih =>
    intro n acc hn hf
    by_cases h10 : n / 10 = 0
    · simp only [Nat.toDigitsCore, h10, if_true]
      rw [Nat.digits_def' (by norm_num : (1 : ℕ) < 10) hn, h10, Nat.digits_zero]
      simp
    · have hn' : 0 < n / 10 := Nat.pos_of_ne_zero h10
      have hlt : n / 10 < f := by
        have := Nat.div_lt_self hn (by norm_num : 1 < 10)
        omega
      simp only [Nat.toDigitsCore, h10, if_false]
      rw [ih (n / 10) _ hn' hlt,
        Nat.digits_def' (by norm_num : (1 : ℕ) < 10) hn]
      simp

theorem repr_eq_of_pos {n : Nat} (hn : 0 < n) :
    Nat.repr n = String.mk (((Nat.digits 10 n).map Nat.digitChar).reverse) := by
  unfold Nat.repr Nat.toDigits
  rw [toDigitsCore_eq_digits (n + 1) n [] hn (by omega)]
  simp [List.asString]

theorem digitChar_injOn :
    ∀ a, a < 10 → ∀ b, b < 10 → Nat.digitChar a = Nat.digitChar b → a = b := by
  decide

theorem map_digitChar_inj :
    ∀ l1 l2 : List Nat, (∀ d ∈ l1, d < 10) → (∀ d ∈ l2, d < 10) →
      l1.map Nat.digitChar = l2.map Nat.digitChar → l1 = l2 := by
  intro l1
  induction l1 with
  | nil =>
    intro l2 _ _ h
    cases l2 with
    | nil => rfl
    | cons b bs => simp at h
  | cons a as ih =>
    intro l2 h1 h2 h
    cases l2 with
    | nil => simp at h
    | cons b bs =>
      simp only [List.map_cons, List.cons.injEq] at h
      have hab := digitChar_injOn a (h1 a (by simp)) b (h2 b (by simp)) h.1
      rw [hab, ih bs (fun d hd => h1 d (by simp [hd])) (fun d hd => h2 d (by simp [hd])) h.2]

theorem digits_eq_of_map_digitChar_eq {m n : Nat}
    (h : (Nat.digits 10 m).map Nat.digitChar = (Nat.digits 10 n).map Nat.digitChar) :
    m = n := by
  have := map_digitChar_inj (Nat.digits 10 m) (Nat.digits 10 n)
    (fun d hd => Nat.digits_lt_base (by norm_num : 1 < 10) hd)
    (fun d hd => Nat.digits_lt_base (by norm_num : 1 < 10) hd) h
  exact Nat.digits_inj_iff.mp this

theorem natRepr_inj {m n : Nat} (h : Nat.repr m = Nat.repr n) : m = n := by
  rcases Nat.eq_zero_or_pos m with hm | hm <;> rcases Nat.eq_zero_or_pos n with hn | hn
  · rw [hm, hn]
  · exfalso
    subst hm
    rw [repr_eq_of_pos hn] at h
    have hd := congrArg String.data h
    simp only [String.mk] at hd
    have hrev : (Nat.digits 10 n).map Nat.digitChar = ['0'] := by
      have := congrArg List.reverse hd
      simpa using this.symm
    have : Nat.digits 10 n = [0] :=
      map_digitChar_inj _ [0]
        (fun d hd => Nat.digits_lt_base (by norm_num : 1 < 10) hd)
        (by decide) (by simpa using hrev)
    have hzero : n = 0 := by
      have := Nat.ofDigits_digits 10 n
      rw [this.symm, ‹Nat.digits 10 n = [0]›]
      simp [Nat.ofDigits]
    omega
  · exfalso
    subst hn
    rw [repr_eq_of_pos hm] at h
    have hd := congrArg String.data h
    simp only [String.mk] at hd
    have hrev : (Nat.digits 10 m).map Nat.digitChar = ['0'] := by
      have := congrArg List.reverse hd
      simpa using this
    have : Nat.digits 10 m = [0] :=
      map_digitChar_inj _ [0]
        (fun d hd => Nat.digits_lt_base (by norm_num : 1 < 10) hd)
        (by decide) (by simpa using hrev)
    have hzero : m = 0 := by
      have := Nat.ofDigits_digits 10 m
      rw [this.symm, ‹Nat.digits 10 m = [0]›]
      simp [Nat.ofDigits]
    omega
  · rw [repr_eq_of_pos hm, repr_eq_of_pos hn] at h
    have hd := congrArg String.data h
    simp only [String.mk] at hd
    exact digits_eq_of_map_digitChar_eq (by simpa using congrArg List.reverse hd)

theorem mkClientId_inj {m n : Nat} (h : mkClientId m = mkClientId n) : m = n := by
  unfold mkClientId at h
  have hd := congrArg String.data h
  simp only [String.data_append] at hd
  exact natRepr_inj (String.ext (List.append_cancel_left hd))

/-- C3: `handleSSE` assigns the id built from the current counter — distinct
from every id in the registry when all registered ids come from earlier
counter values — stores the new connection with an empty outbound queue and
an incremented counter, writes as first (and only) registration event a
`connected` event whose data carries exactly the assigned id, and preserves
the id invariant, so ids stay fresh across any number of registrations. -/
theorem handleSSE_fresh (rb : Bool) (s : ViewerState)
    (hinv : ∀ c ∈ s.clients, ∃ k, k < s.nextClientId ∧ c.id = mkClientId k) :
    (handleSSE rb s).2.1 = mkClientId s.nextClientId ∧
      (∀ c ∈ s.clients, c.id ≠ (handleSSE rb s).2.1) ∧
      (handleSSE rb s).1.clients =
        s.clients ++ [⟨mkClientId s.nextClientId, [], rb⟩] ∧
      (handleSSE rb s).1.nextClientId = s.nextClientId + 1 ∧
      (handleSSE rb s).2.2 =
        [(mkClientId s.nextClientId,
          { type := "connected",
            data := EventData.clientId (mkClientId s.nextClientId) })] ∧
      (∀ c ∈ (handleSSE rb s).1.clients,
        ∃ k, k < (handleSSE rb s).1.nextClientId ∧ c.id = mkClientId k) := by
  refine ⟨rfl, ?_, rfl, rfl, rfl, ?_⟩
  · intro c hc heq
    obtain ⟨k, hk, hid⟩ := hinv c hc
    have : k = s.nextClientId := mkClientId_inj (hid ▸ heq)
    omega
  · intro c hc
    simp only [handleSSE, List.mem_append, List.mem_singleton] at hc
    rcases hc with hc | hc
    · obtain ⟨k, hk, hid⟩ := hinv c hc
      exact ⟨k, by simp [handleSSE]; omega, hid⟩
    · subst hc
      exact ⟨s.nextClientId, by simp [handleSSE], rfl⟩

theorem handleSSE_fresh_witness :
    (handleSSE false ViewerState.init).2.1 = mkClientId 1 ∧
      (handleSSE false ViewerState.init).1.clients =
        [⟨mkClientId 1, [], false⟩] ∧
      (handleSSE false ViewerState.init).1.nextClientId = 2 ∧
      (handleSSE false ViewerState.init).2.2 =
        [(mkClientId 1,
          { type := "connected", data := EventData.clientId (mkClientId 1) })] := by
  have h := handleSSE_fresh false ViewerState.init (by simp [ViewerState.init])
  exact ⟨h.1, by simpa using h.2.2.1, h.2.2.2.1, h.2.2.2.2.1⟩

/-! ## Transcript reader theorems -/

/-- C5: `parseJSONL` is total, and on a file body it returns exactly one
record per non-blank line, in file order: the i-th record is the decoded
object of the i-th non-blank line when `JSON.parse` accepts it, and the
`parse_error` sentinel preserving that raw line when it does not. -/
theorem parseJSONL_per_line {J : Type} (env : Env J) (filePath content : String)
    (i : Nat) (hread : env.readFileSync filePath = some content) :
    (parseJSONL env filePath).length = (nonBlankLines content).length ∧
      (parseJSONL env filePath)[i]? = ((nonBlankLines content)[i]?).map
        (fun line =>
          match env.jsonParse line with
          | some v => TranscriptMessage.record v
          | none => TranscriptMessage.parseErrorRecord line) := by
  unfold parseJSONL
  rw [hread]
  refine ⟨?_, ?_⟩ <;> simp

theorem parseJSONL_per_line_witness :
    (parseJSONL envC5 "f").length = (nonBlankLines "1\n\nbad").length ∧
      (parseJSONL envC5 "f")[1]? = ((nonBlankLines "1\n\nbad")[1]?).map
        (fun line =>
          match envC5.jsonParse line with
          | some v => TranscriptMessage.record v
          | none => TranscriptMessage.parseErrorRecord line) :=
  parseJSONL_per_line envC5 "f" "1\n\nbad" 1 rfl

/-- C6: `getSession` never raises (it is a total function into `Option`),
and it returns not-found (`none`) exactly when `statSync` on the
deterministically reconstructed path throws — covering a missing path as
well as I/O and permission errors, which are all modelled by a throwing
`statSync`; in particular, on a filesystem with nothing in it,
`getSession "nonexistent-project" "nonexistent-id"` returns `none`. -/
theorem getSession_not_found {J : Type} (env : Env J) (pn sid : String) :
    (getSession env pn sid = none ↔
      env.statSync (joinPath (joinPath CLAUDE_PROJECTS_DIR pn) (sid ++ ".jsonl"))
        = none) ∧
      getSession envNoneFS "nonexistent-project" "nonexistent-id" = none := by
  constructor
  · unfold getSession parseSession
    cases hstat : env.statSync
        (joinPath (joinPath CLAUDE_PROJECTS_DIR pn) (sid ++ ".jsonl")) with
    | none => simp [hstat]
    | some mtimeMs => simp [hstat]
  · rfl

/-- C9: `getProjectSessions` returns the project's collected sessions (a
permutation of them) sorted by `lastModified` descending: every session in
the result has a `lastModified` no smaller than any session after it. -/
theorem getProjectSessions_sorted {J : Type} (env : Env J) (projectPath : String) :
    (getProjectSessions env projectPath).Pairwise
        (fun a b => b.lastModified ≤ a.lastModified) ∧
      (getProjectSessions env projectPath).Perm (collectSessions env projectPath) := by
  constructor
  · unfold getProjectSessions
    refine List.Pairwise.imp (fun hab => ?_)
      (List.sorted_mergeSort (fun a b c hab hbc => ?_) (fun a b => ?_)
        (collectSessions env projectPath))
    · simpa using hab
    · simp only [decide_eq_true_iff] at hab hbc ⊢
      omega
    · simp only [Bool.or_eq_true, decide_eq_true_iff]
      omega
  · unfold getProjectSessions
    exact List.mergeSort_perm _ _

/-! ## Session-id round-trip (C7) -/

/-- C7 counterexample: `"x.jsonly.jsonl"` is classified as a session file,
but `sessionFile.replace('.jsonl', '')` removes the FIRST occurrence of
`".jsonl"`, so `parseSession` extracts the session id `"xy.jsonl"`, and
appending the transcript extension to it yields `"xy.jsonl.jsonl"`, not the
original filename — `getSession` would reconstruct the path of a different
file. -/
theorem sessionId_roundtrip_cex :
    isSessionFile "x.jsonly.jsonl" = true ∧
      (Option.map Session.sessionId
        (parseSession envAllFound "/p" "x.jsonly.jsonl")) = some "xy.jsonl" ∧
      ("xy.jsonl" ++ ".jsonl" : String) ≠ "x.jsonly.jsonl" := by
  refine ⟨by decide, by decide, by decide⟩

/-- C7 amended: for every session filename `f = stem ++ ".jsonl"` in which
the FIRST occurrence of `".jsonl"` is the final extension (i.e. `".jsonl"`
does not occur earlier in `f`), the session id that `parseSession` extracts
round-trips: appending `".jsonl"` to it yields `f` again, so `getSession`
reconstructs the path of the same file. -/
theorem sessionId_roundtrip {J : Type} (env : Env J) (projectPath f : String)
    (stem : List Char) (s : Session J)
    (hsess : parseSession env projectPath f = some s)
    (_hses : isSessionFile f = true)
    (hf : f.data = stem ++ (".jsonl" : String).data)
    (hocc : firstOccAux (".jsonl" : String).data f.data = some stem.length) :
    s.sessionId ++ ".jsonl" = f := by
  have hid : s.sessionId = jsReplaceFirst f ".jsonl" := by
    cases hstat : env.statSync (joinPath projectPath f) with
    | none =>
      unfold parseSession at hsess
      simp only [hstat] at hsess
      cases hsess
    | some mtimeMs =>
      unfold parseSession at hsess
      simp only [hstat] at hsess
      injection hsess with h
      rw [← h]
  have hrepl : jsReplaceFirst f ".jsonl" = String.mk stem := by
    have htake : f.data.take stem.length = stem := by
      rw [hf]
      exact List.take_left' rfl
    have hdrop : f.data.drop (stem.length + (".jsonl" : String).data.length) = [] := by
      rw [hf]
      have hlen : (stem ++ (".jsonl" : String).data).length
          = stem.length + (".jsonl" : String).data.length := by simp
      rw [← hlen, List.drop_length]
    unfold jsReplaceFirst
    rw [hocc]
    show String.mk (f.data.take stem.length
      ++ f.data.drop (stem.length + (".jsonl" : String).data.length)) = String.mk stem
    rw [htake, hdrop]
    simp
  apply String.ext
  rw [hid, hrepl]
  simpa using hf.symm

theorem sessionId_roundtrip_witness :
    ({ projectPath := "/p", projectName := "p", sessionFile := "abc.jsonl"
       sessionId := "abc", messages := [], subAgents := []
       lastModified := 0 } : Session Unit).sessionId ++ ".jsonl" = "abc.jsonl" :=
  sessionId_roundtrip envAllFound "/p" "abc.jsonl" "abc".data _
    (by decide) (by decide) (by decide) (by decide)

/-! ## Filename classification (C8) -/

theorem jsStartsWith_iff (s pat : String) :
    jsStartsWith s pat = true ↔ ∃ t, s.data = pat.data ++ t := by
  unfold jsStartsWith
  rw [decide_eq_true_iff]
  constructor
  · intro h
    refine ⟨s.data.drop pat.data.length, ?_⟩
    conv_lhs => rw [← List.take_append_drop pat.data.length s.data]
    rw [h]
  · rintro ⟨t, ht⟩
    rw [ht]
    exact List.take_left' rfl

theorem jsEndsWith_iff (s pat : String) :
    jsEndsWith s pat = true ↔ ∃ p, s.data = p ++ pat.data := by
  unfold jsEndsWith
  rw [decide_eq_true_iff]
  constructor
  · rintro ⟨hdrop, _⟩
    refine ⟨s.data.take (s.data.length - pat.data.length), ?_⟩
    conv_lhs => rw [← List.take_append_drop (s.data.length - pat.data.length) s.data]
    rw [hdrop]
  · rintro ⟨p, hp⟩
    rw [hp]
    constructor
    · rw [show (p ++ pat.data).length - pat.data.length = p.length by simp]
      exact List.drop_left p pat.data
    · simp

theorem firstOccAux_isSome_iff (pat l : List Char) :
    (firstOccAux pat l).isSome = true ↔ ∃ p t, l = p ++ pat ++ t := by
  induction l with
  | nil =>
    by_cases hp : pat = []
    · subst hp
      simp [firstOccAux]
    · simp only [firstOccAux, if_neg hp, Option.isSome_none, Bool.false_eq_true,
        false_iff]
      rintro ⟨p, t, hpt⟩
      have := congrArg List.length hpt
      simp at this
      exact hp (List.eq_nil_of_length_eq_zero (by omega))
  | cons c rest ih =>
    by_cases htake : (c :: rest).take pat.length = pat
    · simp only [firstOccAux, if_pos htake, Option.isSome_some, true_iff]
      refine ⟨[], (c :: rest).drop pat.length, ?_⟩
      conv_lhs => rw [← List.take_append_drop pat.length (c :: rest)]
      rw [htake]
      simp
    · simp only [firstOccAux, if_neg htake, Option.isSome_map']
      rw [ih]
      constructor
      · rintro ⟨p, t, hpt⟩
        exact ⟨c :: p, t, by rw [hpt]; simp⟩
      · rintro ⟨p, t, hpt⟩
        cases p with
        | nil =>
          exfalso
          apply htake
          simp only [List.nil_append] at hpt
          rw [hpt]
          exact List.take_left' rfl
        | cons c' p' =>
          simp only [List.cons_append, List.cons.injEq] at hpt
          exact ⟨p', t, hpt.2⟩

theorem jsIncludes_iff (s pat : String) :
    jsIncludes s pat = true ↔ ∃ p t, s.data = p ++ pat.data ++ t := by
  unfold jsIncludes
  exact firstOccAux_isSome_iff pat.data s.data

/-- C8 counterexample: `"x-agent-1.jsonl"` ends in the transcript extension
and does not match the agent-file naming convention (it does not start with
`"agent-"`), but because `isSessionFile` also rejects any filename
containing `"-agent-"`, it is classified neither as a session file nor as an
agent file. -/
theorem isSessionFile_cex :
    jsEndsWith "x-agent-1.jsonl" ".jsonl" = true ∧
      isSubAgentFile "x-agent-1.jsonl" = false ∧
      isSessionFile "x-agent-1.jsonl" = false := by
  refine ⟨by decide, by decide, by decide⟩

/-- C8 amended: a filename is classified as a session file iff it ends in
`".jsonl"`, does not match the agent-file naming convention (an `"agent-"`
start together with a `".jsonl"` end), and moreover does not contain the
substring `"-agent-"` anywhere; a filename is classified as an agent file
iff it matches the convention.  The containment conditions are stated as
substring decompositions, independent of the scanning code. -/
theorem isSessionFile_iff (f : String) :
    (isSessionFile f = true ↔
      (∃ p, f.data = p ++ (".jsonl" : String).data) ∧
        ¬((∃ t, f.data = ("agent-" : String).data ++ t) ∧
          (∃ p, f.data = p ++ (".jsonl" : String).data)) ∧
        ¬(∃ p t, f.data = p ++ ("-agent-" : String).data ++ t)) ∧
      (isSubAgentFile f = true ↔
        (∃ t, f.data = ("agent-" : String).data ++ t) ∧
          (∃ p, f.data = p ++ (".jsonl" : String).data)) := by
  have hsub : isSubAgentFile f = true ↔
      (∃ t, f.data = ("agent-" : String).data ++ t) ∧
        (∃ p, f.data = p ++ (".jsonl" : String).data) := by
    unfold isSubAgentFile
    rw [Bool.and_eq_true, jsStartsWith_iff, jsEndsWith_iff]
  refine ⟨?_, hsub⟩
  unfold isSessionFile
  rw [Bool.and_eq_true, Bool.and_eq_true, jsEndsWith_iff,
    Bool.not_eq_true', Bool.not_eq_true']
  constructor
  · rintro ⟨⟨hend, hagent⟩, hinc⟩
    refine ⟨hend, ?_, ?_⟩
    · intro hc
      rw [hsub.mpr hc] at hagent
      exact Bool.noConfusion hagent
    · intro hc
      rw [(jsIncludes_iff f "-agent-").mpr hc] at hinc
      exact Bool.noConfusion hinc
  · rintro ⟨hend, hagent, hinc⟩
    refine ⟨⟨hend, ?_⟩, ?_⟩
    · cases hsb : isSubAgentFile f
      · rfl
      · exact absurd (hsub.mp hsb) hagent
    · cases hic : jsIncludes f "-agent-"
      · rfl
      · exact absurd ((jsIncludes_iff f "-agent-").mp hic) hinc

/-! ## Project-name extraction (C10) -/

theorem jsSplitChar_ne_nil (sep : Char) (l : List Char) : jsSplitChar sep l ≠ [] := by
  cases l with
  | nil => simp [jsSplitChar]
  | cons c rest =>
    unfold jsSplitChar
    cases jsSplitChar sep rest with
    | nil => simp
    | cons p ps =>
      by_cases hc : c = sep <;> simp [hc]

theorem jsSplitChar_parts_no_sep (sep : Char) (l : List Char) :
    ∀ p ∈ jsSplitChar sep l, sep ∉ p := by
  induction l with
  | nil =>
    intro p hp
    simp [jsSplitChar] at hp
    simp [hp]
  | cons c rest ih =>
    intro p hp
    unfold jsSplitChar at hp
    cases hsplit : jsSplitChar sep rest with
    | nil => exact absurd hsplit (jsSplitChar_ne_nil sep rest)
    | cons q qs =>
      rw [hsplit] at hp
      replace hp : p ∈ (if c = sep then ([] : List Char) :: q :: qs
        else (c :: q) :: qs) := hp
      by_cases hc : c = sep
      · rw [if_pos hc] at hp
        simp only [List.mem_cons] at hp
        rcases hp with hp | hp | hp
        · simp [hp]
        · exact ih p (by rw [hsplit]; simp [hp])
        · exact ih p (by rw [hsplit]; simp [hp])
      · rw [if_neg hc] at hp
        simp only [List.mem_cons] at hp
        rcases hp with hp | hp
        · subst hp
          intro hmem
          simp only [List.mem_cons] at hmem
          rcases hmem with hmem | hmem
          · exact hc hmem.symm
          · exact ih q (by rw [hsplit]; simp) hmem
        · exact ih p (by rw [hsplit]; simp [hp])

theorem jsSplitPop_no_sep (sep : Char) (s : String) :
    sep ∉ (jsSplitPop sep s).data := by
  unfold jsSplitPop
  have hmem := List.getLastD_mem_cons (jsSplitChar sep s.data) ([] : List Char)
  simp only [List.mem_cons] at hmem
  rcases hmem with hmem | hmem
  · rw [hmem]
    simp
  · exact jsSplitChar_parts_no_sep sep s.data _ hmem

/-- C10 counterexample: with every path present on disk,
`getSession env "a/" "s"` returns a Session, and — because
`projectPath.split('/').pop()` is empty for the trailing-slash path and the
`|| 'unknown'` fallback kicks in — its `projectName` is `"unknown"`, which
is NOT the substring of its `projectPath` after the last `'/'` (that
substring is empty). -/
theorem getSession_projectName_cex :
    getSession envAllFound "a/" "s" =
        some { projectPath := "/home/user/.claude/projects/a/"
               projectName := "unknown"
               sessionFile := "s.jsonl", sessionId := "s"
               messages := [], subAgents := [], lastModified := 0 } ∧
      jsSplitPop '/' "/home/user/.claude/projects/a/" = "" ∧
      ("unknown" : String) ≠ "" := by
  refine ⟨by decide, by decide, by decide⟩

/-- C10 amended: whenever `getSession` returns a Session, the Session's
`projectName` is the substring of its `projectPath` after the last `'/'`
when that substring is non-empty, and the fallback `"unknown"` when it is
empty; in either case, if the caller-supplied project name contains a `'/'`,
the returned `projectName` differs from the argument — the lookup silently
resolves to a directory that is not an immediate child of the projects
root. -/
theorem getSession_projectName {J : Type} (env : Env J) (pn sid : String)
    (s : Session J) (h : getSession env pn sid = some s) :
    s.projectName = (if jsSplitPop '/' s.projectPath = "" then "unknown"
        else jsSplitPop '/' s.projectPath) ∧
      ('/' ∈ pn.data → s.projectName ≠ pn) := by
  have hrec : s.projectPath = joinPath CLAUDE_PROJECTS_DIR pn ∧
      s.projectName = (if jsSplitPop '/' (joinPath CLAUDE_PROJECTS_DIR pn) = ""
        then "unknown" else jsSplitPop '/' (joinPath CLAUDE_PROJECTS_DIR pn)) := by
    unfold getSession parseSession at h
    cases hstat : env.statSync
        (joinPath (joinPath CLAUDE_PROJECTS_DIR pn) (sid ++ ".jsonl")) with
    | none =>
      simp only [hstat] at h
      cases h
    | some mtimeMs =>
      simp only [hstat] at h
      injection h with h
      rw [← h]
      exact ⟨rfl, rfl⟩
  obtain ⟨hpath, hname⟩ := hrec
  constructor
  · rw [hname, hpath]
  · intro hslash heq
    by_cases hempty : jsSplitPop '/' (joinPath CLAUDE_PROJECTS_DIR pn) = ""
    · rw [hname, if_pos hempty] at heq
      rw [← heq] at hslash
      exact absurd hslash (by decide)
    · rw [hname, if_neg hempty] at heq
      rw [← heq] at hslash
      exact jsSplitPop_no_sep '/' (joinPath CLAUDE_PROJECTS_DIR pn) hslash

theorem getSession_projectName_witness :
    ("b" : String) =
        (if jsSplitPop '/' ("/home/user/.claude/projects/a/b" : String) = ""
          then "unknown" else jsSplitPop '/' ("/home/user/.claude/projects/a/b" : String)) ∧
      ("b" : String) ≠ "a/b" := by
  have h := getSession_projectName envAllFound "a/b" "s"
    { projectPath := "/home/user/.claude/projects/a/b"
      projectName := "b", sessionFile := "s.jsonl", sessionId := "s"
      messages := [], subAgents := [], lastModified := 0 } (by decide)
  exact ⟨h.1, h.2 (by decide)⟩

end ClaudeMem
